import Mathlib

/-!
# Verification of the knittingpattern parser and grid layout

A shallow embedding of `knittingpattern/Parser.py` (the mesh-connection
resolver and the surrounding parsing pipeline), together with the mesh
and grid-layout model that the parser's collaborators provide.  The
parser source is embedded faithfully; the `Row`/`Mesh` data model and the
`GridLayout` engine (whose sources are not part of the parser module) are
modelled from the specification, as marked in their doc comments.
-/

set_option maxHeartbeats 1000000

/-- Python identifier values as they occur in row ids: scalars (numbers,
strings) or flat sequences of scalars.  `list` is mutable (unhashable in
Python), `tuple` is its hashable counterpart. -/
inductive PyScalar where
  | int (n : Int)
  | str (s : String)
deriving Repr, DecidableEq

/-- A row / pattern identifier: either a scalar or a list/tuple of scalars. -/
inductive PyId where
  | scalar (v : PyScalar)
  | list (xs : List PyScalar)
  | tuple (xs : List PyScalar)
deriving Repr, DecidableEq

/-- `Parser._to_id`: converts the argument to an object suitable as an
identifier, turning a list into a tuple and leaving anything else as is. -/
def toId : PyId → PyId
  | .list xs => .tuple xs
  | v => v

/-- Whether a mesh is a produced or a consumed mesh of its row. -/
inductive MeshRole where
  | produced
  | consumed
deriving Repr, DecidableEq

/-- Modelled from the spec: a mesh is addressed by a stable index — the
serial number of the row owning it, its role, and its position in the
row's flat produced/consumed mesh sequence. -/
structure MeshRef where
  rowSerial : Nat
  role : MeshRole
  idx : Nat
deriving Repr, DecidableEq

/-- First-match association-list lookup; models a Python dict whose
updates are modelled by consing the new binding at the front. -/
def alookup {α β : Type} [DecidableEq α] (k : α) : List (α × β) → Option β
  | [] => none
  | (a, b) :: rest => if a = k then some b else alookup k rest

/-- An instruction of a row, reduced to the data the resolver and the
layout engine read: how many meshes it consumes and produces. -/
structure KInstruction where
  consumes : Nat
  produces : Nat
deriving Repr, DecidableEq

/-- The row descriptor handed to `Parser._row`: the raw id, the optional
`instructions` entry and the optional `same as` reference. -/
structure RowValues where
  rowId : PyId
  instructionsGiven : Option (List KInstruction)
  sameAs : Option PyId
deriving Repr, DecidableEq

/-- Modelled from the spec: a `Row` object — its serial number in the
arena, its canonicalized id, the raw descriptor it was built from, the
optional row it inherits from (same-as defaulting), and its materialized
instruction list, which starts empty and is extended later by the
deferred instruction todo. -/
structure Row where
  serial : Nat
  rowId : PyId
  values : RowValues
  inheritedFrom : Option Nat
  instructions : List KInstruction
deriving Repr, DecidableEq

/-- One end of a connection descriptor: the raw row id and the optional
`start` entry. -/
structure ConnEnd where
  endId : PyId
  start : Option Int
deriving Repr, DecidableEq

/-- A connection descriptor `{from, to, meshes?}`. -/
structure Connection where
  fromEnd : ConnEnd
  toEnd : ConnEnd
  meshes : Option Int
deriving Repr, DecidableEq

/-- The mutable parser state: the row arena (index = serial), the row id
cache, the two deferred-work queues and the mesh link table. -/
structure ParserState where
  rows : List Row
  idCache : List (PyId × Nat)
  inheritanceTodos : List (Nat × PyId)
  instructionTodos : List Nat
  links : List (MeshRef × MeshRef)
deriving Repr, DecidableEq

/-- `Parser._start`: fresh parsing state. -/
def startState : ParserState :=
  { rows := [], idCache := [], inheritanceTodos := [], instructionTodos := [],
    links := [] }

/-- Modelled from the spec: the effective instruction list of a row —
its own `instructions` entry, else the one of the row it inherits from
(attribute defaulting along the same-as chain, fuel-bounded). -/
def rowInstructionsSpec (rows : List Row) : Nat → Row → List KInstruction
  | 0, r => r.values.instructionsGiven.getD []
  | fuel + 1, r =>
    match r.values.instructionsGiven with
    | some l => l
    | none =>
      match r.inheritedFrom with
      | some p =>
        match rows.get? p with
        | some pr => rowInstructionsSpec rows fuel pr
        | none => []
      | none => []

/-- Modelled from the spec: `Row.number_of_produced_meshes` — the sum of
the produced-mesh counts of the row's instructions. -/
def numProduced (r : Row) : Nat :=
  (r.instructions.map (·.produces)).sum

/-- Modelled from the spec: `Row.number_of_consumed_meshes`. -/
def numConsumed (r : Row) : Nat :=
  (r.instructions.map (·.consumes)).sum

/-- Modelled from the spec: `Row.produced_meshes` — the concatenation,
in order, of the produced meshes of the row's instructions, addressed by
flat index. -/
def producedMeshes (r : Row) : List MeshRef :=
  (List.range (numProduced r)).map (fun k => ⟨r.serial, .produced, k⟩)

/-- Modelled from the spec: `Row.consumed_meshes`. -/
def consumedMeshes (r : Row) : List MeshRef :=
  (List.range (numConsumed r)).map (fun k => ⟨r.serial, .consumed, k⟩)

/-- Python list slicing `xs[a:b]` for `0 ≤ a ≤ b` (the only case reached
behind the resolver's assertions): out-of-range stops truncate silently. -/
def pySlice {α : Type} (xs : List α) (a b : Int) : List α :=
  (xs.drop a.toNat).take (b - a).toNat

/-- Modelled from the spec: `Mesh.connect_to` on the link table — the two
meshes become mutual counterparts, and any previous counterpart of either
is silently unlinked, keeping links symmetric with at most one
counterpart per mesh.  The table stores both directions of every link. -/
def connectTo (links : List (MeshRef × MeshRef)) (a b : MeshRef) :
    List (MeshRef × MeshRef) :=
  (a, b) :: (b, a) ::
    links.filter (fun e => ¬ (e.1 = a ∨ e.1 = b ∨ e.2 = a ∨ e.2 = b))

/-- The counterpart of a mesh in the link table, if any. -/
def linkOf (st : ParserState) (m : MeshRef) : Option MeshRef :=
  alookup m st.links

/-- Looking up a row serial from a raw descriptor id: `_to_id` then the
id cache, as in `Parser._connect_rows`. -/
def resolveRowSerial (st : ParserState) (rawId : PyId) : Option Nat :=
  alookup (toId rawId) st.idCache

/-- Update the row with the given serial in the arena. -/
def updateRow (rows : List Row) (serial : Nat) (f : Row → Row) : List Row :=
  rows.map (fun r => if r.serial = serial then f r else r)

/-- The loop body of `Parser._connect_rows` after the two rows are
resolved: compute the default mesh count, slice both mesh sequences
behind the source's assertions, and link the zipped pairs. -/
def connectCore (st : ParserState) (c : Connection) (fromRow toRow : Row) :
    Except String ParserState :=
  let fromStart : Int := c.fromEnd.start.getD 0
  let fromPossible : Int := (numProduced fromRow : Int) - fromStart
  let toStart : Int := c.toEnd.start.getD 0
  let toPossible : Int := (numConsumed toRow : Int) - toStart
  let meshes : Int := min fromPossible toPossible
  let n : Int := c.meshes.getD meshes
  let fromStop : Int := fromStart + n
  let toStop : Int := toStart + n
  if ¬ (0 ≤ fromStart ∧ fromStart ≤ fromStop) then .error "AssertionError" else
  let produced := pySlice (producedMeshes fromRow) fromStart fromStop
  if ¬ (0 ≤ toStart ∧ toStart ≤ toStop) then .error "AssertionError" else
  let consumed := pySlice (consumedMeshes toRow) toStart toStop
  if produced.length ≠ consumed.length then .error "AssertionError" else
  let pairs := produced.zip consumed
  .ok { st with links := pairs.foldl (fun l p => connectTo l p.1 p.2) st.links }

/-- The row lookups of the loop body of `Parser._connect_rows`: a missing
id is a `KeyError`; the rest of the body is `connectCore`. -/
def connectOne (st : ParserState) (c : Connection) : Except String ParserState := do
  let some fromSerial := resolveRowSerial st c.fromEnd.endId
    | .error "KeyError: from row id"
  let some fromRow := st.rows.get? fromSerial
    | .error "KeyError: from row id"
  let some toSerial := resolveRowSerial st c.toEnd.endId
    | .error "KeyError: to row id"
  let some toRow := st.rows.get? toSerial
    | .error "KeyError: to row id"
  connectCore st c fromRow toRow

/-- `Parser._connect_rows`: resolve the connection descriptors in order. -/
def connectRows (st : ParserState) : List Connection → Except String ParserState
  | [] => .ok st
  | c :: rest => do connectRows (← connectOne st c) rest

/-- `Parser._row`: create the row, queue the deferred same-as inheritance
and the deferred instruction append, and register the row in the id
cache under its canonicalized id (overwriting any previous binding). -/
def parseRow (st : ParserState) (values : RowValues) : ParserState × Nat :=
  let rowId := toId values.rowId
  let serial := st.rows.length
  let row : Row :=
    { serial := serial, rowId := rowId, values := values,
      inheritedFrom := none, instructions := [] }
  let st1 := { st with rows := st.rows ++ [row] }
  let st2 :=
    match values.sameAs with
    | some p =>
      { st1 with inheritanceTodos := st1.inheritanceTodos ++ [(serial, toId p)] }
    | none => st1
  let st3 := { st2 with instructionTodos := st2.instructionTodos ++ [serial] }
  ({ st3 with idCache := (rowId, serial) :: st3.idCache }, serial)

/-- `Parser._rows`: parse a collection of rows in order. -/
def parseRows (st : ParserState) : List RowValues → ParserState × List Nat
  | [] => (st, [])
  | v :: rest =>
    let (st1, s) := parseRow st v
    let (st2, ss) := parseRows st1 rest
    (st2, s :: ss)

/-- One step of `Parser._finish_inheritance`: look the parent up in the
id cache (a missing id is a `KeyError`) and record the inheritance. -/
def inheritOne (st : ParserState) (serial : Nat) (parentId : PyId) :
    Except String ParserState := do
  let some parentSerial := alookup parentId st.idCache
    | .error "KeyError: same as row id"
  .ok { st with rows := updateRow st.rows serial (fun r => { r with inheritedFrom := some parentSerial }) }

/-- The pop-until-empty loop of `Parser._finish_inheritance`; the queue
is popped from the end. -/
def finishInheritanceAux (st : ParserState) :
    List (Nat × PyId) → Except String ParserState
  | [] => .ok st
  | (serial, parentId) :: rest => do
    finishInheritanceAux (← inheritOne st serial parentId) rest

/-- `Parser._finish_inheritance`: drain the deferred inheritance queue. -/
def finishInheritance (st : ParserState) : Except String ParserState :=
  finishInheritanceAux { st with inheritanceTodos := [] }
    st.inheritanceTodos.reverse

/-- One step of `Parser._finish_instructions`: extend the row's
materialized instruction list with its effective `instructions` entry. -/
def extendInstructions (rows : List Row) (serial : Nat) : List Row :=
  updateRow rows serial
    (fun r => { r with instructions := r.instructions ++ rowInstructionsSpec rows rows.length r })

/-- `Parser._finish_instructions`: drain the deferred instruction queue
(popped from the end); this loop cannot fail. -/
def finishInstructions (st : ParserState) : ParserState :=
  { st with rows := st.instructionTodos.reverse.foldl extendInstructions st.rows,
            instructionTodos := [] }

/-- A parsed knitting pattern: its id, name and the serials of its rows. -/
structure KPattern where
  patId : PyId
  name : String
  rowSerials : List Nat
deriving Repr, DecidableEq

/-- The descriptor a single pattern is parsed from. -/
structure PatternValues where
  patId : PyId
  name : String
  rows : List RowValues
  connections : List Connection

/-- The tail of `Parser._pattern` from the point where connection
resolution starts. -/
def connectStage (st : ParserState) (base : PatternValues) (rowSerials : List Nat) :
    Except String (ParserState × KPattern) := do
  let st4 ← connectRows st base.connections
  .ok (st4, { patId := toId base.patId, name := base.name, rowSerials := rowSerials })

/-- `Parser._pattern`: parse the rows, drain both deferred queues, then
resolve the connections and build the pattern. -/
def patternParse (st : ParserState) (base : PatternValues) :
    Except String (ParserState × KPattern) := do
  let (st1, serials) := parseRows st base.rows
  let st2 ← finishInheritance st1
  let st3 := finishInstructions st2
  connectStage st3 base serials

/-- `Parser._fill_pattern_collection`: parse every pattern of the set in
order, threading the parser state. -/
def fillPatterns (st : ParserState) :
    List PatternValues → Except String (ParserState × List KPattern)
  | [] => .ok (st, [])
  | p :: rest => do
    let (st1, kp) ← patternParse st p
    let (st2, kps) ← fillPatterns st1 rest
    .ok (st2, kp :: kps)

/-- The pattern-set descriptor handed to `Parser.knitting_pattern_set`. -/
structure SetValues where
  setType : Option String
  version : Option PyId
  patterns : List PatternValues
  comment : Option String

/-- The parsed pattern set, holding the final parser state (the row
arena and the resolved mesh links — the pattern graph). -/
structure KPatternSet where
  setType : String
  version : PyId
  patterns : List KPattern
  comment : Option String
  finalState : ParserState
deriving Repr, DecidableEq

/-- `Parser._get_type`: the `type` entry must be present and equal to
`"knitting pattern"`. -/
def getTypeField (values : SetValues) : Except String String :=
  match values.setType with
  | none => .error "ParsingError: no pattern type given"
  | some t =>
    if t ≠ "knitting pattern" then .error "ParsingError: wrong pattern type"
    else .ok t

/-- `Parser.knitting_pattern_set`: restart the parser state, parse every
pattern, then check the envelope and build the pattern set.  The previous
parser state `self` is discarded by `_start`. -/
def knittingPatternSet (self : ParserState) (values : SetValues) :
    Except String KPatternSet := do
  let st := startState
  let (st1, pats) ← fillPatterns st values.patterns
  let t ← getTypeField values
  let some v := values.version
    | .error "KeyError: version"
  .ok { setType := t, version := v, patterns := pats,
        comment := values.comment, finalState := st1 }

/-! ## Grid layout engine

The `GridLayout` class is not part of the parser module; the definitions
below are modelled from the specification's layout algorithm (root
selection, row y placement, instruction x placement, grid connections,
bounding box). -/

/-- A placed instruction: which instruction of which row it is, its grid
position and its size in meshes. -/
structure GridPoint where
  rowSerial : Nat
  instrIdx : Nat
  x : Int
  y : Int
  width : Nat
  height : Nat
deriving Repr, DecidableEq, Inhabited

/-- Modelled from the spec: the serials of the rows whose production
feeds the given row — the owners of the linked counterparts of its
consumed meshes. -/
def rowProducers (st : ParserState) (r : Row) : List Nat :=
  (consumedMeshes r).filterMap (fun m => (linkOf st m).map (·.rowSerial))

/-- A row is ready to be placed when every row producing into it has
been placed already (a row with only boundary meshes is a root). -/
def readyRow (st : ParserState) (placed : List (Nat × Int)) (serial : Nat) : Bool :=
  match st.rows.get? serial with
  | some r => (rowProducers st r).all (fun p => (alookup p placed).isSome)
  | none => true

/-- Modelled from the spec: the y coordinate of a row — `0` for a root,
else one below the lowest producing row. -/
def rowY (st : ParserState) (placed : List (Nat × Int)) (serial : Nat) : Int :=
  match st.rows.get? serial with
  | some r =>
    let ps := rowProducers st r
    if ps.isEmpty then 0
    else (ps.foldl (fun acc p => max acc ((alookup p placed).getD 0)) 0) + 1
  | none => 0

/-- The first pending row, in insertion order, whose dependencies are
all placed. -/
def findReady (st : ParserState) (placed : List (Nat × Int)) :
    List Nat → Option Nat
  | [] => none
  | s :: rest => if readyRow st placed s then some s else findReady st placed rest

/-- Modelled from the spec: place rows one at a time — always the first
ready pending row, at its dependency-determined y.  Stops when nothing is
ready (cyclic dependencies are left unplaced). -/
def placeRowsAux (st : ParserState) :
    Nat → List (Nat × Int) → List Nat → List (Nat × Int)
  | 0, placed, _ => placed
  | fuel + 1, placed, pending =>
    match findReady st placed pending with
    | none => placed
    | some s =>
      placeRowsAux st fuel (placed ++ [(s, rowY st placed s)]) (pending.erase s)

/-- Stable insertion into a list sorted by the key, after equal keys. -/
def insertSortedBy (key : Nat → Int) (s : Nat) : List Nat → List Nat
  | [] => [s]
  | t :: rest =>
    if key s < key t then s :: t :: rest else t :: insertSortedBy key s rest

/-- Stable sort by an integer key. -/
def sortByKey (key : Nat → Int) (l : List Nat) : List Nat :=
  l.foldl (fun acc s => insertSortedBy key s acc) []

/-- Modelled from the spec: the x an instruction is placed at — its first
consumed mesh's producing instruction's x when that mesh is linked and
the producer is placed, else the previous instruction's end. -/
def instrX (st : ParserState) (meshPts : List (MeshRef × (GridPoint × Int)))
    (r : Row) (cstart : Nat) (i : KInstruction) (prevEnd : Int) : Int :=
  if i.consumes = 0 then prevEnd
  else
    match linkOf st ⟨r.serial, .consumed, cstart⟩ with
    | some p =>
      match alookup p meshPts with
      | some (pt, _) => pt.x
      | none => prevEnd
    | none => prevEnd

/-- Modelled from the spec: walk a row's instructions left to right,
assigning x positions and recording, for every produced mesh, its
instruction's point and its own column. -/
def placeInstrsAux (st : ParserState) (meshPts : List (MeshRef × (GridPoint × Int)))
    (r : Row) (y : Int) :
    List KInstruction → Nat → Nat → Nat → Int →
    List GridPoint × List (MeshRef × (GridPoint × Int))
  | [], _, _, _, _ => ([], [])
  | i :: rest, idx, cstart, pstart, prevEnd =>
    let x := instrX st meshPts r cstart i prevEnd
    let width := i.produces
    let pt : GridPoint :=
      { rowSerial := r.serial, instrIdx := idx, x := x, y := y,
        width := width, height := 1 }
    let newMesh := (List.range i.produces).map
      (fun k => ((⟨r.serial, .produced, pstart + k⟩ : MeshRef), (pt, x + k)))
    let (pts, mps) := placeInstrsAux st meshPts r y rest (idx + 1)
      (cstart + i.consumes) (pstart + i.produces) (x + width)
    (pt :: pts, newMesh ++ mps)

/-- Place one row's instructions. -/
def placeRowInstrs (st : ParserState) (meshPts : List (MeshRef × (GridPoint × Int)))
    (r : Row) (y : Int) :
    List GridPoint × List (MeshRef × (GridPoint × Int)) :=
  placeInstrsAux st meshPts r y r.instructions 0 0 0 0

/-- Modelled from the spec: whether the link of a consumed mesh needs an
explicit grid connection — it does unless the consumer sits directly
below the producer in the same column. -/
def meshConnAt (st : ParserState) (meshPts : List (MeshRef × (GridPoint × Int)))
    (pt : GridPoint) (m : MeshRef) (col : Int) : Option (GridPoint × GridPoint) :=
  match linkOf st m with
  | none => none
  | some p =>
    match alookup p meshPts with
    | none => none
    | some (ppt, pcol) =>
      if pt.y = ppt.y + 1 ∧ pcol = col then none else some (ppt, pt)

/-- The grid connections contributed by one instruction's consumed
meshes. -/
def instrConns (st : ParserState) (meshPts : List (MeshRef × (GridPoint × Int)))
    (r : Row) (pt : GridPoint) (cstart : Nat) (consumes : Nat) :
    List (GridPoint × GridPoint) :=
  (List.range consumes).filterMap
    (fun k => meshConnAt st meshPts pt ⟨r.serial, .consumed, cstart + k⟩ (pt.x + k))

/-- The grid connections contributed by one row. -/
def rowConnsAux (st : ParserState) (meshPts : List (MeshRef × (GridPoint × Int)))
    (r : Row) : List (KInstruction × GridPoint) → Nat → List (GridPoint × GridPoint)
  | [], _ => []
  | (i, pt) :: rest, cstart =>
    instrConns st meshPts r pt cstart i.consumes
      ++ rowConnsAux st meshPts r rest (cstart + i.consumes)

/-- Walk the placed rows in order, accumulating instruction points and
grid connections. -/
def layoutAux (st : ParserState) :
    List (Nat × Int) → List (MeshRef × (GridPoint × Int)) →
    List GridPoint × List (GridPoint × GridPoint)
  | [], _ => ([], [])
  | (s, y) :: rest, meshPts =>
    match st.rows.get? s with
    | none => layoutAux st rest meshPts
    | some r =>
      let (pts, newMesh) := placeRowInstrs st meshPts r y
      let conns := rowConnsAux st meshPts r (r.instructions.zip pts) 0
      let (pts2, conns2) := layoutAux st rest (meshPts ++ newMesh)
      (pts ++ pts2, conns ++ conns2)

/-- The computed grid layout of a pattern: the placed points in walk
order, the explicit grid connections, and the walked rows with their y. -/
structure GridLayout where
  points : List GridPoint
  conns : List (GridPoint × GridPoint)
  rowOrder : List (Nat × Int)
deriving Repr

/-- Modelled from the spec: `GridLayout(pattern)` — compute the row ys,
order the rows by (y, insertion order) and place every instruction. -/
def mkLayout (st : ParserState) (pat : KPattern) : GridLayout :=
  let placed := placeRowsAux st pat.rowSerials.length [] pat.rowSerials
  let ordered := sortByKey (fun s => (alookup s placed).getD 0) (placed.map (·.1))
  let orderedYs := ordered.map (fun s => (s, (alookup s placed).getD 0))
  let (pts, cs) := layoutAux st orderedYs []
  { points := pts, conns := cs, rowOrder := orderedYs }

/-- `walk_instructions(lambda p: (p.x, p.y))`. -/
def walkCoordinates (l : GridLayout) : List (Int × Int) :=
  l.points.map (fun p => (p.x, p.y))

/-- `walk_instructions(lambda p: (p.width, p.height))`. -/
def walkSizes (l : GridLayout) : List (Nat × Nat) :=
  l.points.map (fun p => (p.width, p.height))

/-- `walk_rows(lambda row: row.id)`. -/
def walkRowIds (st : ParserState) (l : GridLayout) : List PyId :=
  l.rowOrder.filterMap (fun sy => (st.rows.get? sy.1).map (·.rowId))

/-- Modelled from the spec: the bounding box
`(min_x, min_y, max_x_exclusive, max_y_exclusive)` over all placed
points. -/
def boundingBox (l : GridLayout) : Int × Int × Int × Int :=
  match l.points with
  | [] => (0, 0, 0, 0)
  | p :: rest =>
    (rest.foldl (fun a q => min a q.x) p.x,
     rest.foldl (fun a q => min a q.y) p.y,
     rest.foldl (fun a q => max a (q.x + q.width)) (p.x + p.width),
     rest.foldl (fun a q => max a (q.y + 1)) (p.y + 1))

/-! ## Concrete scenarios -/

/-- A plain knit stitch: consumes one mesh, produces one mesh. -/
def knit : KInstruction := ⟨1, 1⟩

/-- A full default connection between two rows given by integer id. -/
def mkConn (a b : Int) : Connection :=
  ⟨⟨.scalar (.int a), none⟩, ⟨.scalar (.int b), none⟩, none⟩

/-- The `block4x4.json` scenario: four rows of four knit stitches, each
row fully connected to the next. -/
def block4x4Values : SetValues :=
  { setType := some "knitting pattern", version := some (.scalar (.str "0.1")),
    patterns := [
      { patId := .scalar (.str "knit"), name := "knit",
        rows := [
          ⟨.scalar (.int 1), some [knit, knit, knit, knit], none⟩,
          ⟨.scalar (.int 2), some [knit, knit, knit, knit], none⟩,
          ⟨.scalar (.int 3), some [knit, knit, knit, knit], none⟩,
          ⟨.scalar (.int 4), some [knit, knit, knit, knit], none⟩],
        connections := [mkConn 1 2, mkConn 2 3, mkConn 3 4] }],
    comment := none }

/-- A placeholder pattern set used when extraction fails. -/
def emptySet : KPatternSet :=
  { setType := "", version := .scalar (.int 0), patterns := [],
    comment := none, finalState := startState }

/-- The parsed 4×4 block pattern set. -/
def block4x4Set : KPatternSet :=
  match knittingPatternSet startState block4x4Values with
  | .ok ps => ps
  | .error _ => emptySet

/-- The grid layout of the 4×4 block pattern. -/
def block4x4Layout : GridLayout :=
  mkLayout block4x4Set.finalState
    (block4x4Set.patterns.headD ⟨.scalar (.int 0), "", []⟩)

/-- The hole scenario: a full first row of knits, then a row containing
an instruction that consumes two meshes and produces none. -/
def holeValues : SetValues :=
  { setType := some "knitting pattern", version := some (.scalar (.str "0.1")),
    patterns := [
      { patId := .scalar (.str "hole"), name := "hole",
        rows := [
          ⟨.scalar (.int 1), some [knit, knit, knit, knit], none⟩,
          ⟨.scalar (.int 2), some [knit, ⟨2, 0⟩, knit], none⟩],
        connections := [mkConn 1 2] }],
    comment := none }

/-- The parsed hole pattern set. -/
def holeSet : KPatternSet :=
  match knittingPatternSet startState holeValues with
  | .ok ps => ps
  | .error _ => emptySet

/-- The grid layout of the hole pattern. -/
def holeLayout : GridLayout :=
  mkLayout holeSet.finalState (holeSet.patterns.headD ⟨.scalar (.int 0), "", []⟩)

/-- A pattern whose single connection asks for two meshes although both
rows only produce/consume one: both stop indices overflow the bounds by
the same amount. -/
def overflowBase : PatternValues :=
  { patId := .scalar (.str "p"), name := "p",
    rows := [⟨.scalar (.int 1), some [knit], none⟩,
             ⟨.scalar (.int 2), some [knit], none⟩],
    connections := [⟨⟨.scalar (.int 1), none⟩, ⟨.scalar (.int 2), none⟩, some 2⟩] }

/-- The final parser state of the overflow pattern. -/
def overflowSt : ParserState :=
  match patternParse startState overflowBase with
  | .ok (st, _) => st
  | .error _ => startState

/-! ## General lemmas about the embedding -/

theorem alookup_cons_self {α β : Type} [DecidableEq α] (k : α) (v : β)
    (l : List (α × β)) : alookup k ((k, v) :: l) = some v := by
  simp [alookup]

theorem alookup_append {α β : Type} [DecidableEq α] (k : α)
    (l1 l2 : List (α × β)) :
    alookup k (l1 ++ l2)
      = match alookup k l1 with
        | some v => some v
        | none => alookup k l2 := by
  induction l1 with
  | nil => simp [alookup]
  | cons e rest ih =>
    rcases e with ⟨a, b⟩
    by_cases h : a = k <;> simp [alookup, h, ih]

theorem alookup_eq_none_of_not_mem {α β : Type} [DecidableEq α] (k : α)
    (l : List (α × β)) (h : k ∉ l.map Prod.fst) : alookup k l = none := by
  induction l with
  | nil => rfl
  | cons e rest ih =>
    rcases e with ⟨a, b⟩
    rw [List.map_cons, List.mem_cons] at h
    push_neg at h
    rw [alookup, if_neg (fun hc => h.1 hc.symm), ih h.2]

theorem length_producedMeshes (r : Row) :
    (producedMeshes r).length = numProduced r := by
  simp [producedMeshes]

theorem length_consumedMeshes (r : Row) :
    (consumedMeshes r).length = numConsumed r := by
  simp [consumedMeshes]

theorem pySlice_length {α : Type} (xs : List α) (a b : Int)
    (h0 : 0 ≤ a) (hab : a ≤ b) :
    ((pySlice xs a b).length : Int) = min b xs.length - min a xs.length := by
  simp [pySlice, List.length_take, List.length_drop]
  omega

theorem drop_range (m n : Nat) :
    (List.range n).drop m = List.range' m (n - m) := by
  rcases Nat.le_total m n with h | h
  · apply List.ext_getElem
    · simp
    · intro i h1 h2
      simp_all [List.getElem_drop]
  · rw [List.drop_eq_nil_of_le (by simpa using h), Nat.sub_eq_zero_of_le h]
    simp

theorem pySlice_range_map {α : Type} (f : Nat → α) (N : Nat) (a b : Int)
    (h0 : 0 ≤ a) (hab : a ≤ b) (hbN : b ≤ N) :
    pySlice ((List.range N).map f) a b
      = (List.range (b - a).toNat).map (fun i => f (a.toNat + i)) := by
  unfold pySlice
  rw [← List.map_drop, drop_range, List.range'_eq_map_range, ← List.map_take,
      ← List.map_take, List.take_range]
  have : min (b - a).toNat (N - a.toNat) = (b - a).toNat := by omega
  rw [this, List.map_map]
  rfl

/-! ## C8: determinism across invocations -/

/-- C8: `knitting_pattern_set` discards the previous resolver state by
calling `_start`, so its result does not depend on the parser state left
behind by earlier invocations: two runs on identical input descriptors
produce identical results. -/
theorem c8_fresh_state_determinism (s1 s2 : ParserState) (values : SetValues) :
    knittingPatternSet s1 values = knittingPatternSet s2 values := rfl

/-- Closed witness: a fresh parser and one holding leftover state give
the same result on the 4×4 block input. -/
theorem c8_fresh_state_determinism_witness :
    knittingPatternSet startState block4x4Values
      = knittingPatternSet holeSet.finalState block4x4Values :=
  c8_fresh_state_determinism startState holeSet.finalState block4x4Values

/-! ## C5: the 4×4 plain-grid scenario -/

/-- C5: parsing and laying out the 4×4 plain-grid pattern (four rows of
four single-mesh instructions, each row fully connected to the next)
succeeds, assigns coordinates `[(x, y) for y in 0..3 for x in 0..3]` in
walk order, gives every instruction size `(1, 1)`, walks the four rows in
order, emits no larger connections, and has bounding box `(0, 0, 4, 4)`. -/
theorem c5_block4x4_layout :
    (knittingPatternSet startState block4x4Values).isOk = true
    ∧ walkCoordinates block4x4Layout
        = [(0, 0), (1, 0), (2, 0), (3, 0), (0, 1), (1, 1), (2, 1), (3, 1),
           (0, 2), (1, 2), (2, 2), (3, 2), (0, 3), (1, 3), (2, 3), (3, 3)]
    ∧ walkSizes block4x4Layout = List.replicate 16 (1, 1)
    ∧ walkRowIds block4x4Set.finalState block4x4Layout
        = [.scalar (.int 1), .scalar (.int 2), .scalar (.int 3), .scalar (.int 4)]
    ∧ block4x4Layout.conns = []
    ∧ boundingBox block4x4Layout = (0, 0, 4, 4) := by
  refine ⟨by decide, by decide, by decide, by decide, by decide, by decide⟩

/-! ## C1: out-of-range connections -/

theorem connectOne_eq_core (st : ParserState) (c : Connection)
    (fromSerial toSerial : Nat) (fromRow toRow : Row)
    (hf : resolveRowSerial st c.fromEnd.endId = some fromSerial)
    (hfr : st.rows.get? fromSerial = some fromRow)
    (ht : resolveRowSerial st c.toEnd.endId = some toSerial)
    (htr : st.rows.get? toSerial = some toRow) :
    connectOne st c = connectCore st c fromRow toRow := by
  rw [List.get?_eq_getElem?] at hfr htr
  simp [connectOne, hf, ht, hfr, htr]

/-- C1 counterexample: in `overflowBase` the single connection has
`start = 0` and `meshes = 2` against rows producing and consuming only
one mesh, so both computed stop indices (`0 + 2 = 2`) exceed the mesh
sequence bounds (`1`); yet resolving raises no exception — the pattern
parse succeeds and only the one in-bounds pair is linked, refuting the
claim that such a connection is a fatal error. -/
theorem c1_counterexample :
    overflowBase.connections
      = [⟨⟨.scalar (.int 1), none⟩, ⟨.scalar (.int 2), none⟩, some 2⟩]
    ∧ overflowSt.rows.map numProduced = [1, 1]
    ∧ overflowSt.rows.map numConsumed = [1, 1]
    ∧ (0 : Int) + 2 > 1
    ∧ (patternParse startState overflowBase).isOk = true
    ∧ overflowSt.links
        = [(⟨0, .produced, 0⟩, ⟨1, .consumed, 0⟩),
           (⟨1, .consumed, 0⟩, ⟨0, .produced, 0⟩)] := by
  refine ⟨by decide, by decide, by decide, by decide, by decide, by decide⟩

/-- C1 amended: for a connection whose rows resolve and whose start
indices and mesh count are non-negative, resolution raises an exception
if and only if the two slices, truncated at the mesh sequence bounds,
have different lengths; in particular a stop index exceeding the bounds
is NOT an error whenever both sides truncate to the same length — the
pairs in bounds are linked silently. -/
theorem c1_amended_truncation (st : ParserState) (c : Connection)
    (fromSerial toSerial : Nat) (fromRow toRow : Row) (fs ts n : Int)
    (hf : resolveRowSerial st c.fromEnd.endId = some fromSerial)
    (hfr : st.rows.get? fromSerial = some fromRow)
    (ht : resolveRowSerial st c.toEnd.endId = some toSerial)
    (htr : st.rows.get? toSerial = some toRow)
    (hfs : fs = c.fromEnd.start.getD 0)
    (hts : ts = c.toEnd.start.getD 0)
    (hn : n = c.meshes.getD
      (min ((numProduced fromRow : Int) - fs) ((numConsumed toRow : Int) - ts)))
    (hfs0 : 0 ≤ fs) (hts0 : 0 ≤ ts) (hn0 : 0 ≤ n) :
    ((connectOne st c).isOk = true ↔
      min (fs + n) (numProduced fromRow : Int) - min fs (numProduced fromRow : Int)
        = min (ts + n) (numConsumed toRow : Int) - min ts (numConsumed toRow : Int)) := by
  rw [connectOne_eq_core st c fromSerial toSerial fromRow toRow hf hfr ht htr]
  simp only [connectCore]
  rw [← hfs, ← hts, ← hn]
  rw [if_neg (not_not_intro ⟨hfs0, by omega⟩), if_neg (not_not_intro ⟨hts0, by omega⟩)]
  have hP := pySlice_length (producedMeshes fromRow) fs (fs + n) hfs0 (by omega)
  have hC := pySlice_length (consumedMeshes toRow) ts (ts + n) hts0 (by omega)
  rw [length_producedMeshes] at hP
  rw [length_consumedMeshes] at hC
  by_cases hl : (pySlice (producedMeshes fromRow) fs (fs + n)).length
      = (pySlice (consumedMeshes toRow) ts (ts + n)).length
  · rw [if_neg (not_not_intro hl)]
    constructor
    · intro _
      rw [← hP, ← hC, hl]
    · intro _
      rfl
  · rw [if_pos hl]
    constructor
    · intro h
      exact absurd h (by decide)
    · intro h
      rw [← hP, ← hC] at h
      exact absurd (by exact_mod_cast h) hl

/-- The two rows of the overflow scenario as row objects. -/
def ovfRow1 : Row :=
  ⟨0, .scalar (.int 1), ⟨.scalar (.int 1), some [knit], none⟩, none, [knit]⟩

/-- Second overflow row. -/
def ovfRow2 : Row :=
  ⟨1, .scalar (.int 2), ⟨.scalar (.int 2), some [knit], none⟩, none, [knit]⟩

/-- The parser state just before connection resolution in the overflow
scenario. -/
def ovfState : ParserState :=
  ⟨[ovfRow1, ovfRow2], [(.scalar (.int 2), 1), (.scalar (.int 1), 0)], [], [], []⟩

/-- The overflowing connection descriptor. -/
def ovfConn : Connection :=
  ⟨⟨.scalar (.int 1), none⟩, ⟨.scalar (.int 2), none⟩, some 2⟩

/-- Closed witness for the amended C1 statement at the overflow input. -/
theorem c1_amended_truncation_witness :
    ((connectOne ovfState ovfConn).isOk = true ↔
      min ((0 : Int) + 2) (numProduced ovfRow1 : Int) - min 0 (numProduced ovfRow1 : Int)
        = min ((0 : Int) + 2) (numConsumed ovfRow2 : Int) - min 0 (numConsumed ovfRow2 : Int)) :=
  c1_amended_truncation ovfState ovfConn 0 1 ovfRow1 ovfRow2 0 0 2
    (by decide) (by decide) (by decide) (by decide) (by decide) (by decide)
    (by decide) (by decide) (by decide) (by decide)

/-! ## C10: list ids are canonicalized to tuples -/

theorem parseRow_idCache (st : ParserState) (rv : RowValues) :
    (parseRow st rv).1.idCache = (toId rv.rowId, st.rows.length) :: st.idCache := by
  unfold parseRow
  cases rv.sameAs <;> rfl

/-- C10: `_to_id` turns a list id into the equal tuple and leaves any
other id unchanged; a parsed row is cached under the canonicalized id
(so a list id is cached as its tuple), the same conversion is applied to
same-as references when they are queued, and connection-end lookups
resolve a list id and the equal tuple identically. -/
theorem c10_list_ids_canonicalized :
    (∀ xs, toId (.list xs) = .tuple xs)
    ∧ (∀ v : PyId, (∀ xs, v ≠ .list xs) → toId v = v)
    ∧ (∀ (st : ParserState) (rv : RowValues),
        alookup (toId rv.rowId) (parseRow st rv).1.idCache = some st.rows.length)
    ∧ (∀ (st : ParserState) (rv : RowValues) (xs : List PyScalar),
        rv.rowId = .list xs →
        alookup (.tuple xs) (parseRow st rv).1.idCache = some st.rows.length)
    ∧ (∀ (st : ParserState) (rv : RowValues) (p : PyId), rv.sameAs = some p →
        (parseRow st rv).1.inheritanceTodos
          = st.inheritanceTodos ++ [(st.rows.length, toId p)])
    ∧ (∀ (st : ParserState) (xs : List PyScalar),
        resolveRowSerial st (.list xs) = resolveRowSerial st (.tuple xs)) := by
  refine ⟨fun xs => rfl, ?_, ?_, ?_, ?_, fun st xs => rfl⟩
  · intro v h
    cases v with
    | scalar s => rfl
    | list xs => exact absurd rfl (h xs)
    | tuple xs => rfl
  · intro st rv
    rw [parseRow_idCache, alookup_cons_self]
  · intro st rv xs hx
    rw [parseRow_idCache, hx]
    show alookup (.tuple xs) ((toId (.list xs), st.rows.length) :: st.idCache) = _
    rw [show toId (.list xs) = .tuple xs from rfl, alookup_cons_self]
  · intro st rv p hp
    unfold parseRow
    rw [hp]

/-- Closed witness instantiating every part of the C10 statement. -/
theorem c10_list_ids_canonicalized_witness :
    toId (.list [.int 7]) = .tuple [.int 7]
    ∧ toId (.scalar (.int 7)) = .scalar (.int 7)
    ∧ alookup (.tuple [.int 7])
        (parseRow startState ⟨.list [.int 7], none, none⟩).1.idCache = some 0
    ∧ (parseRow startState ⟨.scalar (.int 1), none, some (.list [.int 7])⟩).1.inheritanceTodos
        = [(0, .tuple [.int 7])]
    ∧ resolveRowSerial ovfState (.list [.int 9]) = resolveRowSerial ovfState (.tuple [.int 9]) :=
  ⟨c10_list_ids_canonicalized.1 [.int 7],
   c10_list_ids_canonicalized.2.1 (.scalar (.int 7)) (fun xs h => by cases h),
   c10_list_ids_canonicalized.2.2.2.1 startState ⟨.list [.int 7], none, none⟩ [.int 7] rfl,
   c10_list_ids_canonicalized.2.2.2.2.1 startState
     ⟨.scalar (.int 1), none, some (.list [.int 7])⟩ (.list [.int 7]) rfl,
   c10_list_ids_canonicalized.2.2.2.2.2 ovfState [.int 9]⟩

/-! ## C2: in-range connections link the sliced pairs one-to-one -/

theorem alookup_filter_of_kept {α β : Type} [DecidableEq α]
    (q : α × β → Bool) (l : List (α × β)) (x : α) (y : β)
    (hq : q (x, y) = true) (hl : alookup x l = some y) :
    alookup x (l.filter q) = some y := by
  induction l with
  | nil => cases hl
  | cons e rest ih =>
    rcases e with ⟨k, v⟩
    by_cases hk : k = x
    · subst hk
      rw [alookup, if_pos rfl] at hl
      injection hl with hv
      subst hv
      rw [List.filter_cons, if_pos hq, alookup, if_pos rfl]
    · rw [alookup, if_neg hk] at hl
      rw [List.filter_cons]
      by_cases hkept : q (k, v) = true
      · rw [if_pos hkept, alookup, if_neg hk]
        exact ih hl
      · rw [if_neg hkept]
        exact ih hl

theorem alookup_connectTo_left (l : List (MeshRef × MeshRef)) (a b : MeshRef) :
    alookup a (connectTo l a b) = some b := by
  rw [connectTo, alookup, if_pos rfl]

theorem alookup_connectTo_right (l : List (MeshRef × MeshRef)) (a b : MeshRef) :
    alookup b (connectTo l a b) = some a := by
  rw [connectTo, alookup]
  by_cases hab : a = b
  · rw [if_pos hab, hab]
  · rw [if_neg hab, alookup, if_pos rfl]

theorem alookup_connectTo_other (l : List (MeshRef × MeshRef)) (a b x : MeshRef)
    (y : MeshRef) (hxa : x ≠ a) (hxb : x ≠ b) (hya : y ≠ a) (hyb : y ≠ b)
    (hl : alookup x l = some y) :
    alookup x (connectTo l a b) = some y := by
  rw [connectTo, alookup, if_neg (fun h => hxa h.symm), alookup,
      if_neg (fun h => hxb h.symm)]
  exact alookup_filter_of_kept _ l x y (by simp [hxa, hxb, hya, hyb]) hl

theorem fold_connectTo_preserve (pairs : List (MeshRef × MeshRef)) :
    ∀ (l : List (MeshRef × MeshRef)) (x y : MeshRef),
    alookup x l = some y →
    (∀ p ∈ pairs, p.1 ≠ x ∧ p.2 ≠ x ∧ p.1 ≠ y ∧ p.2 ≠ y) →
    alookup x (pairs.foldl (fun acc p => connectTo acc p.1 p.2) l) = some y := by
  induction pairs with
  | nil => intro l x y hl _; exact hl
  | cons p rest ih =>
    intro l x y hl hdist
    rw [List.foldl_cons]
    have hp := hdist p (List.mem_cons_self p rest)
    apply ih
    · exact alookup_connectTo_other l p.1 p.2 x y
        (fun h => hp.1 h.symm) (fun h => hp.2.1 h.symm)
        (fun h => hp.2.2.1 h.symm) (fun h => hp.2.2.2 h.symm) hl
    · intro q hq
      exact hdist q (List.mem_cons_of_mem p hq)

theorem fold_connectTo_mem (pairs : List (MeshRef × MeshRef)) :
    ∀ (l : List (MeshRef × MeshRef)) (a b : MeshRef),
    (a, b) ∈ pairs →
    (pairs.map Prod.fst).Nodup →
    (pairs.map Prod.snd).Nodup →
    (∀ p ∈ pairs, ∀ q ∈ pairs, p.1 ≠ q.2) →
    alookup a (pairs.foldl (fun acc p => connectTo acc p.1 p.2) l) = some b
    ∧ alookup b (pairs.foldl (fun acc p => connectTo acc p.1 p.2) l) = some a := by
  induction pairs with
  | nil => intro l a b hmem; cases hmem
  | cons p rest ih =>
    intro l a b hmem hnf hns hcross
    rw [List.map_cons, List.nodup_cons] at hnf hns
    rcases List.mem_cons.mp hmem with heq | hmem'
    · subst heq
      rw [List.foldl_cons]
      have hqall : ∀ q ∈ rest, q.1 ≠ a ∧ q.2 ≠ a ∧ q.1 ≠ b ∧ q.2 ≠ b := by
        intro q hq
        refine ⟨?_, ?_, ?_, ?_⟩
        · intro h
          have hm := List.mem_map_of_mem Prod.fst hq
          rw [h] at hm
          exact hnf.1 hm
        · exact (hcross (a, b) (List.mem_cons_self _ _) q
            (List.mem_cons_of_mem _ hq)).symm
        · exact hcross q (List.mem_cons_of_mem _ hq) (a, b) (List.mem_cons_self _ _)
        · intro h
          have hm := List.mem_map_of_mem Prod.snd hq
          rw [h] at hm
          exact hns.1 hm
      constructor
      · apply fold_connectTo_preserve
        · exact alookup_connectTo_left l a b
        · intro q hq
          obtain ⟨h1, h2, h3, h4⟩ := hqall q hq
          exact ⟨h1, h2, h3, h4⟩
      · apply fold_connectTo_preserve
        · exact alookup_connectTo_right l a b
        · intro q hq
          obtain ⟨h1, h2, h3, h4⟩ := hqall q hq
          exact ⟨h3, h4, h1, h2⟩
    · rw [List.foldl_cons]
      exact ih (connectTo l p.1 p.2) a b hmem' hnf.2 hns.2
        (fun x hx y hy => hcross x (List.mem_cons_of_mem _ hx) y (List.mem_cons_of_mem _ hy))

/-- C2: for a connection with in-range indices (starts defaulting to 0,
count defaulting to the mutually satisfiable maximum), resolution
succeeds, the zipped slice pairs are exactly the `count` pairs
`(produced_meshes[from_start+i], consumed_meshes[to_start+i])` in slice
order, and every one of those pairs ends up mutually linked. -/
theorem c2_in_range_links_pairs (st : ParserState) (c : Connection)
    (fromSerial toSerial : Nat) (fromRow toRow : Row) (fs ts n : Int)
    (hf : resolveRowSerial st c.fromEnd.endId = some fromSerial)
    (hfr : st.rows.get? fromSerial = some fromRow)
    (ht : resolveRowSerial st c.toEnd.endId = some toSerial)
    (htr : st.rows.get? toSerial = some toRow)
    (hfs : fs = c.fromEnd.start.getD 0)
    (hts : ts = c.toEnd.start.getD 0)
    (hn : n = c.meshes.getD
      (min ((numProduced fromRow : Int) - fs) ((numConsumed toRow : Int) - ts)))
    (hfs0 : 0 ≤ fs) (hts0 : 0 ≤ ts) (hn0 : 0 ≤ n)
    (hFin : fs + n ≤ (numProduced fromRow : Int))
    (hTin : ts + n ≤ (numConsumed toRow : Int)) :
    ∃ st', connectOne st c = .ok st'
      ∧ (pySlice (producedMeshes fromRow) fs (fs + n)).zip
            (pySlice (consumedMeshes toRow) ts (ts + n))
          = (List.range n.toNat).map (fun i =>
              ((⟨fromRow.serial, .produced, fs.toNat + i⟩ : MeshRef),
               (⟨toRow.serial, .consumed, ts.toNat + i⟩ : MeshRef)))
      ∧ ∀ i < n.toNat,
          linkOf st' ⟨fromRow.serial, .produced, fs.toNat + i⟩
            = some ⟨toRow.serial, .consumed, ts.toNat + i⟩
          ∧ linkOf st' ⟨toRow.serial, .consumed, ts.toNat + i⟩
            = some ⟨fromRow.serial, .produced, fs.toNat + i⟩ := by
  have harg : (fs + n - fs).toNat = n.toNat := by omega
  have hPs : pySlice (producedMeshes fromRow) fs (fs + n)
      = (List.range n.toNat).map
          (fun i => (⟨fromRow.serial, .produced, fs.toNat + i⟩ : MeshRef)) := by
    unfold producedMeshes
    rw [pySlice_range_map _ _ fs (fs + n) hfs0 (by omega) (by exact_mod_cast hFin), harg]
  have htarg : (ts + n - ts).toNat = n.toNat := by omega
  have hCs : pySlice (consumedMeshes toRow) ts (ts + n)
      = (List.range n.toNat).map
          (fun i => (⟨toRow.serial, .consumed, ts.toNat + i⟩ : MeshRef)) := by
    unfold consumedMeshes
    rw [pySlice_range_map _ _ ts (ts + n) hts0 (by omega) (by exact_mod_cast hTin), htarg]
  have hzip : (pySlice (producedMeshes fromRow) fs (fs + n)).zip
        (pySlice (consumedMeshes toRow) ts (ts + n))
      = (List.range n.toNat).map (fun i =>
          ((⟨fromRow.serial, .produced, fs.toNat + i⟩ : MeshRef),
           (⟨toRow.serial, .consumed, ts.toNat + i⟩ : MeshRef))) := by
    rw [hPs, hCs, List.zip_map']
  have hok : connectOne st c = .ok { st with
      links := ((pySlice (producedMeshes fromRow) fs (fs + n)).zip
          (pySlice (consumedMeshes toRow) ts (ts + n))).foldl
        (fun l p => connectTo l p.1 p.2) st.links } := by
    rw [connectOne_eq_core st c fromSerial toSerial fromRow toRow hf hfr ht htr]
    simp only [connectCore]
    rw [← hfs, ← hts, ← hn]
    rw [if_neg (not_not_intro ⟨hfs0, by omega⟩), if_neg (not_not_intro ⟨hts0, by omega⟩)]
    rw [if_neg (not_not_intro (by rw [hPs, hCs]; simp))]
  refine ⟨_, hok, hzip, ?_⟩
  intro i hi
  have hmem : ((⟨fromRow.serial, .produced, fs.toNat + i⟩ : MeshRef),
      (⟨toRow.serial, .consumed, ts.toNat + i⟩ : MeshRef))
      ∈ ((pySlice (producedMeshes fromRow) fs (fs + n)).zip
          (pySlice (consumedMeshes toRow) ts (ts + n))) := by
    rw [hzip]
    exact List.mem_map_of_mem _ (List.mem_range.mpr hi)
  have hnf : (((pySlice (producedMeshes fromRow) fs (fs + n)).zip
      (pySlice (consumedMeshes toRow) ts (ts + n))).map Prod.fst).Nodup := by
    rw [hzip, List.map_map]
    refine List.Nodup.map ?_ (List.nodup_range _)
    intro i j hij
    simp only [Function.comp, MeshRef.mk.injEq] at hij
    omega
  have hns : (((pySlice (producedMeshes fromRow) fs (fs + n)).zip
      (pySlice (consumedMeshes toRow) ts (ts + n))).map Prod.snd).Nodup := by
    rw [hzip, List.map_map]
    refine List.Nodup.map ?_ (List.nodup_range _)
    intro i j hij
    simp only [Function.comp, MeshRef.mk.injEq] at hij
    omega
  have hcross : ∀ p ∈ ((pySlice (producedMeshes fromRow) fs (fs + n)).zip
        (pySlice (consumedMeshes toRow) ts (ts + n))),
      ∀ q ∈ ((pySlice (producedMeshes fromRow) fs (fs + n)).zip
        (pySlice (consumedMeshes toRow) ts (ts + n))), p.1 ≠ q.2 := by
    rw [hzip]
    intro p hp q hq
    rcases List.mem_map.mp hp with ⟨i1, _, hp1⟩
    rcases List.mem_map.mp hq with ⟨i2, _, hq1⟩
    rw [← hp1, ← hq1]
    intro hcontra
    have hroles := congrArg MeshRef.role hcontra
    simp at hroles
  have := fold_connectTo_mem _ st.links _ _ hmem hnf hns hcross
  exact ⟨this.1, this.2⟩

/-- A full default connection between the two overflow-scenario rows:
all indices in range. -/
def c2wConn : Connection :=
  ⟨⟨.scalar (.int 1), none⟩, ⟨.scalar (.int 2), none⟩, none⟩

/-- Closed witness for C2 at a concrete in-range connection. -/
theorem c2_in_range_links_pairs_witness :
    ∃ st', connectOne ovfState c2wConn = .ok st'
      ∧ (pySlice (producedMeshes ovfRow1) 0 (0 + 1)).zip
            (pySlice (consumedMeshes ovfRow2) 0 (0 + 1))
          = (List.range (1 : Int).toNat).map (fun i =>
              ((⟨ovfRow1.serial, .produced, (0 : Int).toNat + i⟩ : MeshRef),
               (⟨ovfRow2.serial, .consumed, (0 : Int).toNat + i⟩ : MeshRef)))
      ∧ ∀ i < (1 : Int).toNat,
          linkOf st' ⟨ovfRow1.serial, .produced, (0 : Int).toNat + i⟩
            = some ⟨ovfRow2.serial, .consumed, (0 : Int).toNat + i⟩
          ∧ linkOf st' ⟨ovfRow2.serial, .consumed, (0 : Int).toNat + i⟩
            = some ⟨ovfRow1.serial, .produced, (0 : Int).toNat + i⟩ :=
  c2_in_range_links_pairs ovfState c2wConn 0 1 ovfRow1 ovfRow2 0 0 1
    (by decide) (by decide) (by decide) (by decide) rfl rfl (by decide)
    (by decide) (by decide) (by decide) (by decide) (by decide)

/-! ## C4: mesh-link symmetry -/

def NoDupKeys (l : List (MeshRef × MeshRef)) : Prop :=
  (l.map Prod.fst).Nodup

def SymmTable (l : List (MeshRef × MeshRef)) : Prop :=
  NoDupKeys l ∧ ∀ x y, alookup x l = some y → alookup y l = some x

theorem alookup_filter_of_nodup {α β : Type} [DecidableEq α]
    (q : α × β → Bool) (l : List (α × β)) (x : α)
    (hnd : (l.map Prod.fst).Nodup) :
    alookup x (l.filter q)
      = match alookup x l with
        | some y => if q (x, y) then some y else none
        | none => none := by
  induction l with
  | nil => rfl
  | cons e rest ih =>
    rcases e with ⟨k, v⟩
    rw [List.map_cons, List.nodup_cons] at hnd
    by_cases hk : k = x
    · subst hk
      rw [alookup, if_pos rfl, List.filter_cons]
      by_cases hq : q (k, v) = true
      · rw [if_pos hq, alookup, if_pos rfl]
        simp [hq]
      · rw [if_neg hq]
        have hknotin : k ∉ (List.filter q rest).map Prod.fst :=
          fun hmem => hnd.1 ((List.Sublist.map Prod.fst (List.filter_sublist rest)).mem hmem)
        rw [alookup_eq_none_of_not_mem k _ hknotin]
        simp [hq]
    · rw [alookup, if_neg hk, List.filter_cons]
      by_cases hq : q (k, v) = true
      · rw [if_pos hq, alookup, if_neg hk]
        exact ih hnd.2
      · rw [if_neg hq]
        exact ih hnd.2

theorem alookup_connectTo (l : List (MeshRef × MeshRef)) (a b m : MeshRef)
    (hnd : NoDupKeys l) :
    alookup m (connectTo l a b)
      = if m = a then some b
        else if m = b then some a
        else
          match alookup m l with
          | some p => if p = a ∨ p = b then none else some p
          | none => none := by
  by_cases hma : m = a
  · subst hma
    rw [if_pos rfl, connectTo, alookup, if_pos rfl]
  · rw [if_neg hma, connectTo, alookup, if_neg (fun h => hma h.symm)]
    by_cases hmb : m = b
    · subst hmb
      rw [if_pos rfl, alookup, if_pos rfl]
    · rw [if_neg hmb, alookup, if_neg (fun h => hmb h.symm)]
      rw [alookup_filter_of_nodup _ l m hnd]
      cases hml : alookup m l with
      | none => rfl
      | some p =>
        by_cases hp : p = a ∨ p = b
        · simp [hma, hmb, hp]
        · simp [hma, hmb, hp]

theorem connectTo_nodup (l : List (MeshRef × MeshRef)) (a b : MeshRef)
    (hnd : NoDupKeys l) (hab : a ≠ b) : NoDupKeys (connectTo l a b) := by
  unfold NoDupKeys connectTo
  rw [List.map_cons, List.map_cons, List.nodup_cons, List.nodup_cons]
  refine ⟨?_, ?_, (List.Sublist.map Prod.fst (List.filter_sublist l)).nodup hnd⟩
  · rw [List.mem_cons]
    push_neg
    refine ⟨hab, fun hmem => ?_⟩
    rcases List.mem_map.mp hmem with ⟨e, he, hfst⟩
    have := List.of_mem_filter he
    simp [hfst] at this
  · intro hmem
    rcases List.mem_map.mp hmem with ⟨e, he, hfst⟩
    have := List.of_mem_filter he
    simp [hfst] at this

theorem connectTo_symmTable (l : List (MeshRef × MeshRef)) (a b : MeshRef)
    (h : SymmTable l) (hab : a ≠ b) : SymmTable (connectTo l a b) := by
  refine ⟨connectTo_nodup l a b h.1 hab, ?_⟩
  intro x y hxy
  rw [alookup_connectTo l a b x h.1] at hxy
  rw [alookup_connectTo l a b y h.1]
  by_cases hxa : x = a
  · subst hxa
    rw [if_pos rfl] at hxy
    injection hxy with hy
    subst hy
    rw [if_neg (Ne.symm hab), if_pos rfl]
  · rw [if_neg hxa] at hxy
    by_cases hxb : x = b
    · subst hxb
      rw [if_pos rfl] at hxy
      injection hxy with hy
      subst hy
      rw [if_pos rfl]
    · rw [if_neg hxb] at hxy
      cases hml : alookup x l with
      | none => rw [hml] at hxy; cases hxy
      | some p =>
        rw [hml] at hxy
        by_cases hp : p = a ∨ p = b
        · simp [hp] at hxy
        · simp [hp] at hxy
          subst hxy
          push_neg at hp
          rw [if_neg hp.1, if_neg hp.2, h.2 x p hml]
          simp [hxa, hxb]

theorem fold_connectTo_symmTable (pairs : List (MeshRef × MeshRef)) :
    ∀ l, SymmTable l → (∀ p ∈ pairs, p.1 ≠ p.2) →
    SymmTable (pairs.foldl (fun acc p => connectTo acc p.1 p.2) l) := by
  induction pairs with
  | nil => intro l h _; exact h
  | cons p rest ih =>
    intro l h hne
    rw [List.foldl_cons]
    exact ih _ (connectTo_symmTable l p.1 p.2 h (hne p (List.mem_cons_self _ _)))
      (fun q hq => hne q (List.mem_cons_of_mem _ hq))

theorem mem_of_mem_pySlice {α : Type} (xs : List α) (a b : Int) (x : α)
    (h : x ∈ pySlice xs a b) : x ∈ xs :=
  List.mem_of_mem_drop (List.mem_of_mem_take h)

theorem role_of_mem_producedMeshes (r : Row) (m : MeshRef)
    (h : m ∈ producedMeshes r) : m.role = .produced := by
  rcases List.mem_map.mp h with ⟨k, _, hk⟩
  rw [← hk]

theorem role_of_mem_consumedMeshes (r : Row) (m : MeshRef)
    (h : m ∈ consumedMeshes r) : m.role = .consumed := by
  rcases List.mem_map.mp h with ⟨k, _, hk⟩
  rw [← hk]

theorem connectOne_ok_shape (st : ParserState) (c : Connection) (st' : ParserState)
    (h : connectOne st c = .ok st') :
    ∃ pairs : List (MeshRef × MeshRef),
      (∀ p ∈ pairs, p.1.role = .produced ∧ p.2.role = .consumed)
      ∧ st' = { st with
          links := pairs.foldl (fun l p => connectTo l p.1 p.2) st.links } := by
  unfold connectOne at h
  cases h1 : resolveRowSerial st c.fromEnd.endId with
  | none => simp only [h1] at h; cases h
  | some fromSerial =>
  simp only [h1] at h
  cases h2 : st.rows.get? fromSerial with
  | none => simp only [h2] at h; cases h
  | some fromRow =>
  simp only [h2] at h
  cases h3 : resolveRowSerial st c.toEnd.endId with
  | none => simp only [h3] at h; cases h
  | some toSerial =>
  simp only [h3] at h
  cases h4 : st.rows.get? toSerial with
  | none => simp only [h4] at h; cases h
  | some toRow =>
  simp only [h4] at h
  simp only [connectCore] at h
  split at h
  · cases h
  · split at h
    · cases h
    · split at h
      · cases h
      · injection h with hst
        refine ⟨_, ?_, hst.symm⟩
        intro p hp
        rcases p with ⟨p1, p2⟩
        obtain ⟨hp1, hp2⟩ := List.of_mem_zip hp
        exact ⟨role_of_mem_producedMeshes fromRow p1 (mem_of_mem_pySlice _ _ _ _ hp1),
               role_of_mem_consumedMeshes toRow p2 (mem_of_mem_pySlice _ _ _ _ hp2)⟩

theorem connectOne_symmTable (st : ParserState) (c : Connection) (st' : ParserState)
    (h : connectOne st c = .ok st') (hs : SymmTable st.links) :
    SymmTable st'.links := by
  obtain ⟨pairs, hroles, hst⟩ := connectOne_ok_shape st c st' h
  rw [hst]
  apply fold_connectTo_symmTable pairs st.links hs
  intro p hp heq
  have := (hroles p hp).1
  rw [heq, (hroles p hp).2] at this
  cases this

theorem connectOne_ok_fields (st : ParserState) (c : Connection) (st' : ParserState)
    (h : connectOne st c = .ok st') :
    st'.rows = st.rows ∧ st'.idCache = st.idCache
    ∧ st'.inheritanceTodos = st.inheritanceTodos
    ∧ st'.instructionTodos = st.instructionTodos := by
  obtain ⟨pairs, _, hst⟩ := connectOne_ok_shape st c st' h
  rw [hst]
  exact ⟨rfl, rfl, rfl, rfl⟩

theorem connectRows_ok_inv (conns : List Connection) :
    ∀ (st st' : ParserState), connectRows st conns = .ok st' →
    (st'.rows = st.rows ∧ st'.idCache = st.idCache
      ∧ st'.inheritanceTodos = st.inheritanceTodos
      ∧ st'.instructionTodos = st.instructionTodos)
    ∧ (SymmTable st.links → SymmTable st'.links) := by
  induction conns with
  | nil =>
    intro st st' h
    injection h with h
    subst h
    exact ⟨⟨rfl, rfl, rfl, rfl⟩, id⟩
  | cons c rest ih =>
    intro st st' h
    unfold connectRows at h
    cases hc : connectOne st c with
    | error e => simp only [hc] at h; cases h
    | ok st1 =>
      simp only [hc] at h
      obtain ⟨f1, s1⟩ := ih st1 st' h
      obtain ⟨r1, i1, h1, t1⟩ := connectOne_ok_fields st c st1 hc
      exact ⟨⟨f1.1.trans r1, f1.2.1.trans i1, f1.2.2.1.trans h1, f1.2.2.2.trans t1⟩,
             fun hs => s1 (connectOne_symmTable st c st1 hc hs)⟩

theorem parseRow_links (st : ParserState) (rv : RowValues) :
    (parseRow st rv).1.links = st.links := by
  unfold parseRow
  cases rv.sameAs <;> rfl

theorem parseRows_links (l : List RowValues) :
    ∀ st, (parseRows st l).1.links = st.links := by
  induction l with
  | nil => intro st; rfl
  | cons v rest ih =>
    intro st
    show (parseRows (parseRow st v).1 rest).1.links = st.links
    rw [ih, parseRow_links]

theorem inheritOne_ok_shape (st : ParserState) (s : Nat) (p : PyId)
    (st' : ParserState) (h : inheritOne st s p = .ok st') :
    ∃ rows', st' = { st with rows := rows' } := by
  unfold inheritOne at h
  cases hl : alookup p st.idCache with
  | none => simp only [hl] at h; cases h
  | some ps =>
    simp only [hl] at h
    injection h with h
    exact ⟨_, h.symm⟩

theorem finishInheritanceAux_inv (todos : List (Nat × PyId)) :
    ∀ (st st' : ParserState), finishInheritanceAux st todos = .ok st' →
    st'.links = st.links ∧ st'.idCache = st.idCache
    ∧ st'.inheritanceTodos = st.inheritanceTodos
    ∧ st'.instructionTodos = st.instructionTodos := by
  induction todos with
  | nil =>
    intro st st' h
    injection h with h
    subst h
    exact ⟨rfl, rfl, rfl, rfl⟩
  | cons t rest ih =>
    intro st st' h
    rcases t with ⟨s, p⟩
    unfold finishInheritanceAux at h
    cases hc : inheritOne st s p with
    | error e => simp only [hc] at h; cases h
    | ok st1 =>
      simp only [hc] at h
      obtain ⟨rows', hst1⟩ := inheritOne_ok_shape st s p st1 hc
      obtain ⟨l1, i1, h1, t1⟩ := ih st1 st' h
      subst hst1
      exact ⟨l1, i1, h1, t1⟩

theorem finishInheritance_inv (st st' : ParserState)
    (h : finishInheritance st = .ok st') :
    st'.links = st.links ∧ st'.idCache = st.idCache
    ∧ st'.inheritanceTodos = [] ∧ st'.instructionTodos = st.instructionTodos := by
  unfold finishInheritance at h
  exact finishInheritanceAux_inv _ _ _ h

theorem finishInstructions_fields (st : ParserState) :
    (finishInstructions st).links = st.links
    ∧ (finishInstructions st).idCache = st.idCache
    ∧ (finishInstructions st).inheritanceTodos = st.inheritanceTodos
    ∧ (finishInstructions st).instructionTodos = [] :=
  ⟨rfl, rfl, rfl, rfl⟩

theorem patternParse_ok_inv (st : ParserState) (base : PatternValues)
    (st' : ParserState) (kp : KPattern)
    (h : patternParse st base = .ok (st', kp)) :
    st'.idCache = (parseRows st base.rows).1.idCache
    ∧ (SymmTable st.links → SymmTable st'.links) := by
  unfold patternParse connectStage at h
  rcases hpr : parseRows st base.rows with ⟨st1, serials⟩
  rw [hpr] at h
  cases hfi : finishInheritance st1 with
  | error e => simp only [hfi, bind, Except.bind] at h; cases h
  | ok st2 =>
    simp only [hfi, bind, Except.bind] at h
    cases hcr : connectRows (finishInstructions st2) base.connections with
    | error e => simp only [hcr] at h; cases h
    | ok st4 =>
      simp only [hcr] at h
      injection h with h
      have hfields := (connectRows_ok_inv base.connections _ _ hcr).1
      have hsymm := (connectRows_ok_inv base.connections _ _ hcr).2
      have hfi2 := finishInheritance_inv st1 st2 hfi
      have hst' : st' = st4 := congrArg Prod.fst h.symm
      subst hst'
      constructor
      · rw [hfields.2.1]
        show (finishInstructions st2).idCache = _
        rw [(finishInstructions_fields st2).2.1, hfi2.2.1]
      · intro hs
        apply hsymm
        show SymmTable (finishInstructions st2).links
        rw [(finishInstructions_fields st2).1, hfi2.1]
        have : st1.links = st.links := by
          have := parseRows_links base.rows st
          rw [hpr] at this
          exact this
        rw [this]
        exact hs

theorem fillPatterns_symm (ps : List PatternValues) :
    ∀ (st st' : ParserState) (kps : List KPattern),
    fillPatterns st ps = .ok (st', kps) →
    SymmTable st.links → SymmTable st'.links := by
  induction ps with
  | nil =>
    intro st st' kps h hs
    injection h with h
    rw [show st' = st from (congrArg Prod.fst h.symm)]
    exact hs
  | cons p rest ih =>
    intro st st' kps h hs
    unfold fillPatterns at h
    cases hp : patternParse st p with
    | error e => simp only [hp, bind, Except.bind] at h; cases h
    | ok r =>
      rcases r with ⟨st1, kp⟩
      simp only [hp, bind, Except.bind] at h
      cases hr : fillPatterns st1 rest with
      | error e => simp only [hr] at h; cases h
      | ok r2 =>
        rcases r2 with ⟨st2, kps2⟩
        simp only [hr] at h
        injection h with h
        rw [show st' = st2 from (congrArg Prod.fst h.symm)]
        exact ih st1 st2 kps2 hr ((patternParse_ok_inv st p st1 kp hp).2 hs)

theorem knittingPatternSet_ok_inv (self : ParserState) (values : SetValues)
    (ps : KPatternSet) (h : knittingPatternSet self values = .ok ps) :
    ∃ pats, fillPatterns startState values.patterns = .ok (ps.finalState, pats) := by
  unfold knittingPatternSet at h
  cases hf : fillPatterns startState values.patterns with
  | error e => simp only [hf, bind, Except.bind] at h; cases h
  | ok r =>
    rcases r with ⟨st1, pats⟩
    simp only [hf, bind, Except.bind] at h
    cases hg : getTypeField values with
    | error e => simp only [hg, bind, Except.bind] at h; cases h
    | ok t =>
      simp only [hg, bind, Except.bind] at h
      cases hv : values.version with
      | none => simp only [hv] at h; cases h
      | some v =>
        simp only [hv] at h
        injection h with h
        refine ⟨pats, ?_⟩
        rw [← h]

theorem startState_symmTable : SymmTable startState.links :=
  ⟨List.nodup_nil, fun x y h => by cases h⟩

/-- C4: after a successful parse, mesh linking is mutual and symmetric —
whenever the link table maps `m` to `m.link`, it maps `m.link` back to
`m`; the table being a function of the mesh gives each mesh at most one
counterpart. -/
theorem c4_link_symmetry (self : ParserState) (values : SetValues)
    (ps : KPatternSet) (m mlink : MeshRef)
    (h : knittingPatternSet self values = .ok ps)
    (hm : linkOf ps.finalState m = some mlink) :
    linkOf ps.finalState mlink = some m := by
  obtain ⟨pats, hf⟩ := knittingPatternSet_ok_inv self values ps h
  exact (fillPatterns_symm values.patterns startState ps.finalState pats hf
    startState_symmTable).2 m mlink hm

/-- Closed witness: in the parsed 4×4 block pattern the first produced
mesh of row 1 and the first consumed mesh of row 2 are mutual links. -/
theorem c4_link_symmetry_witness :
    linkOf block4x4Set.finalState ⟨0, .produced, 0⟩ = some ⟨1, .consumed, 0⟩ :=
  c4_link_symmetry startState block4x4Values block4x4Set
    ⟨1, .consumed, 0⟩ ⟨0, .produced, 0⟩ rfl (by decide)

/-! ## C3: unknown row ids are fatal -/

theorem connectOne_ok_lookups (st : ParserState) (c : Connection)
    (st' : ParserState) (h : connectOne st c = .ok st') :
    (resolveRowSerial st c.fromEnd.endId).isSome
    ∧ (resolveRowSerial st c.toEnd.endId).isSome := by
  unfold connectOne at h
  cases h1 : resolveRowSerial st c.fromEnd.endId with
  | none => simp only [h1] at h; cases h
  | some fromSerial =>
  simp only [h1] at h
  cases h2 : st.rows.get? fromSerial with
  | none => simp only [h2] at h; cases h
  | some fromRow =>
  simp only [h2] at h
  cases h3 : resolveRowSerial st c.toEnd.endId with
  | none => simp only [h3] at h; cases h
  | some toSerial => exact ⟨rfl, rfl⟩

theorem inheritOne_ok_lookup (st : ParserState) (s : Nat) (p : PyId)
    (st' : ParserState) (h : inheritOne st s p = .ok st') :
    (alookup p st.idCache).isSome := by
  unfold inheritOne at h
  cases hl : alookup p st.idCache with
  | none => simp only [hl] at h; cases h
  | some ps => rfl

theorem connectRows_err_of_unknown (conns : List Connection) :
    ∀ (st : ParserState) (c : Connection), c ∈ conns →
    (resolveRowSerial st c.fromEnd.endId = none
      ∨ resolveRowSerial st c.toEnd.endId = none) →
    ∀ st', connectRows st conns ≠ .ok st' := by
  induction conns with
  | nil => intro st c hmem; cases hmem
  | cons c0 rest ih =>
    intro st c hmem hnone st' h
    unfold connectRows at h
    cases hc : connectOne st c0 with
    | error e => simp only [hc, bind, Except.bind] at h; cases h
    | ok st1 =>
      simp only [hc, bind, Except.bind] at h
      rcases List.mem_cons.mp hmem with heq | hmem'
      · subst heq
        have hlk := connectOne_ok_lookups st c st1 hc
        rcases hnone with hn | hn
        · rw [hn] at hlk; cases hlk.1
        · rw [hn] at hlk; cases hlk.2
      · have hcache := (connectOne_ok_fields st c0 st1 hc).2.1
        refine ih st1 c hmem' ?_ st' h
        unfold resolveRowSerial
        rw [hcache]
        exact hnone

theorem finishInheritanceAux_err (todos : List (Nat × PyId)) :
    ∀ (st : ParserState) (s : Nat) (pid : PyId), (s, pid) ∈ todos →
    alookup pid st.idCache = none →
    ∀ st', finishInheritanceAux st todos ≠ .ok st' := by
  induction todos with
  | nil => intro st s pid hmem; cases hmem
  | cons t rest ih =>
    intro st s pid hmem hnone st' h
    rcases t with ⟨s0, p0⟩
    unfold finishInheritanceAux at h
    cases hc : inheritOne st s0 p0 with
    | error e => simp only [hc, bind, Except.bind] at h; cases h
    | ok st1 =>
      simp only [hc, bind, Except.bind] at h
      rcases List.mem_cons.mp hmem with heq | hmem'
      · have hlk := inheritOne_ok_lookup st s0 p0 st1 hc
        injection heq with h1 h2
        rw [← h2, hnone] at hlk
        cases hlk
      · obtain ⟨rows', hshape⟩ := inheritOne_ok_shape st s0 p0 st1 hc
        refine ih st1 s pid hmem' ?_ st' h
        rw [hshape]
        exact hnone

/-- C3: a connection descriptor naming an unknown row id makes connection
resolution fail (no resolved state is ever returned); a same-as reference
naming an unknown row id makes inheritance resolution fail; and an error
during pattern parsing propagates so that `knitting_pattern_set` returns
the error and no pattern set. -/
theorem c3_unknown_id_fatal :
    (∀ (st : ParserState) (conns : List Connection) (c : Connection),
      c ∈ conns →
      (resolveRowSerial st c.fromEnd.endId = none
        ∨ resolveRowSerial st c.toEnd.endId = none) →
      ∀ st', connectRows st conns ≠ .ok st')
    ∧ (∀ (st : ParserState) (s : Nat) (pid : PyId),
        (s, pid) ∈ st.inheritanceTodos →
        alookup pid st.idCache = none →
        ∀ st', finishInheritance st ≠ .ok st')
    ∧ (∀ (self : ParserState) (values : SetValues) (e : String),
        fillPatterns startState values.patterns = .error e →
        knittingPatternSet self values = .error e) := by
  refine ⟨fun st conns c hmem hnone => connectRows_err_of_unknown conns st c hmem hnone,
          ?_, ?_⟩
  · intro st s pid hmem hnone st' h
    unfold finishInheritance at h
    exact finishInheritanceAux_err st.inheritanceTodos.reverse
      { st with inheritanceTodos := [] } s pid
      (List.mem_reverse.mpr hmem) hnone st' h
  · intro self values e hf
    unfold knittingPatternSet
    simp only [hf, bind, Except.bind]

/-- A pattern whose single connection names the unknown row id 9. -/
def badIdBase : PatternValues :=
  { patId := .scalar (.str "p"), name := "p",
    rows := [⟨.scalar (.int 1), some [knit], none⟩],
    connections := [⟨⟨.scalar (.int 9), none⟩, ⟨.scalar (.int 1), none⟩, none⟩] }

/-- A pattern set containing `badIdBase`. -/
def badIdValues : SetValues :=
  { setType := some "knitting pattern", version := some (.scalar (.str "0.1")),
    patterns := [badIdBase], comment := none }

/-- A state with a pending same-as todo naming the unknown row id 5. -/
def badSameAsState : ParserState :=
  { ovfState with inheritanceTodos := [(0, .scalar (.int 5))] }

/-- Closed witness instantiating all three parts of C3. -/
theorem c3_unknown_id_fatal_witness :
    connectRows ovfState badIdBase.connections ≠ .ok ovfState
    ∧ finishInheritance badSameAsState ≠ .ok ovfState
    ∧ knittingPatternSet startState badIdValues = .error "KeyError: from row id" :=
  ⟨c3_unknown_id_fatal.1 ovfState badIdBase.connections
      ⟨⟨.scalar (.int 9), none⟩, ⟨.scalar (.int 1), none⟩, none⟩
      (List.mem_singleton.mpr rfl) (Or.inl (by decide)) ovfState,
   c3_unknown_id_fatal.2.1 badSameAsState 0 (.scalar (.int 5))
      (List.mem_singleton.mpr rfl) (by decide) ovfState,
   c3_unknown_id_fatal.2.2 startState badIdValues "KeyError: from row id" rfl⟩

/-! ## C7: deferred work is drained before connection resolution -/

/-- C7: `_pattern` factors as: parse the rows, drain the inheritance
queue, drain the instruction queue, and only then resolve the
connections; the state handed to connection resolution has both deferred
queues empty, so resolution never observes pending deferred work. -/
theorem c7_deferred_drained_before_connections (st : ParserState)
    (base : PatternValues) (st2 : ParserState)
    (h : finishInheritance (parseRows st base.rows).1 = .ok st2) :
    patternParse st base
      = connectStage (finishInstructions st2) base (parseRows st base.rows).2
    ∧ (finishInstructions st2).inheritanceTodos = []
    ∧ (finishInstructions st2).instructionTodos = [] := by
  refine ⟨?_, ?_, rfl⟩
  · unfold patternParse
    rcases hpr : parseRows st base.rows with ⟨st1, serials⟩
    rw [hpr] at h
    simp only [h, bind, Except.bind]
  · rw [(finishInstructions_fields st2).2.2.1]
    exact (finishInheritance_inv _ st2 h).2.2.1

/-- The parser state after draining inheritance in the overflow
scenario. -/
def c7St2 : ParserState :=
  match finishInheritance (parseRows startState overflowBase.rows).1 with
  | .ok s => s
  | .error _ => startState

/-- Closed witness for C7 at the overflow scenario. -/
theorem c7_deferred_drained_before_connections_witness :
    patternParse startState overflowBase
      = connectStage (finishInstructions c7St2) overflowBase
          (parseRows startState overflowBase.rows).2
    ∧ (finishInstructions c7St2).inheritanceTodos = []
    ∧ (finishInstructions c7St2).instructionTodos = [] :=
  c7_deferred_drained_before_connections startState overflowBase c7St2 rfl

/-! ## C9: the id cache is shared across patterns of a set -/

theorem parseRows_cache_shape (l : List RowValues) :
    ∀ st, ∃ P, (parseRows st l).1.idCache = P ++ st.idCache
      ∧ P.map Prod.fst = (l.map (fun rv => toId rv.rowId)).reverse := by
  induction l with
  | nil => intro st; exact ⟨[], rfl, rfl⟩
  | cons v rest ih =>
    intro st
    obtain ⟨P, hc, hk⟩ := ih (parseRow st v).1
    refine ⟨P ++ [(toId v.rowId, st.rows.length)], ?_, ?_⟩
    · show (parseRows (parseRow st v).1 rest).1.idCache = _
      rw [hc, parseRow_idCache, List.append_assoc]
      rfl
    · rw [List.map_append, hk]
      simp

/-- C9: a successful pattern parse only extends the id cache: a key not
bound by any of this pattern's rows keeps exactly its previous binding
(so a later pattern of the same set resolves row ids of an earlier
pattern), a key bound before stays bound (never cleared), and parsing a
row rebinds its id to the new row, overwriting any earlier entry. -/
theorem c9_cache_shared_across_patterns (st : ParserState)
    (base : PatternValues) (st' : ParserState) (kp : KPattern) (k : PyId)
    (h : patternParse st base = .ok (st', kp)) :
    ((∀ rv ∈ base.rows, toId rv.rowId ≠ k) →
      alookup k st'.idCache = alookup k st.idCache)
    ∧ (alookup k st.idCache ≠ none → alookup k st'.idCache ≠ none)
    ∧ (∀ (st0 : ParserState) (rv : RowValues),
        alookup (toId rv.rowId) (parseRow st0 rv).1.idCache
          = some st0.rows.length) := by
  have hcache := (patternParse_ok_inv st base st' kp h).1
  obtain ⟨P, hc, hk⟩ := parseRows_cache_shape base.rows st
  rw [hc] at hcache
  refine ⟨?_, ?_, ?_⟩
  · intro hnot
    rw [hcache, alookup_append]
    have : k ∉ P.map Prod.fst := by
      rw [hk, List.mem_reverse]
      intro hmem
      rcases List.mem_map.mp hmem with ⟨rv, hrv, hid⟩
      exact hnot rv hrv hid
    rw [alookup_eq_none_of_not_mem k P this]
  · intro hsome
    rw [hcache, alookup_append]
    cases hP : alookup k P with
    | none => exact hsome
    | some v => exact fun hcontra => by cases hcontra
  · intro st0 rv
    rw [parseRow_idCache, alookup_cons_self]

/-- A later pattern referencing a row defined by an earlier pattern of
the same set (row id 1 lives only in the overflow pattern's cache). -/
def crossBase : PatternValues :=
  { patId := .scalar (.str "q"), name := "q",
    rows := [⟨.scalar (.int 3), some [knit], none⟩],
    connections := [⟨⟨.scalar (.int 1), none⟩, ⟨.scalar (.int 3), none⟩, none⟩] }

/-- The state after parsing `crossBase` on top of the overflow state. -/
def crossSt : ParserState :=
  match patternParse ovfState crossBase with
  | .ok (s, _) => s
  | .error _ => startState

/-- The pattern parsed from `crossBase`. -/
def crossKp : KPattern :=
  match patternParse ovfState crossBase with
  | .ok (_, p) => p
  | .error _ => ⟨.scalar (.int 0), "", []⟩

/-- Closed witness for C9: the cross-pattern parse succeeds (resolving
row id 1 from the earlier pattern), row id 1's binding survives the
second pattern unchanged, and re-parsing a row with id 1 overwrites the
cache entry with the new row. -/
theorem c9_cache_shared_across_patterns_witness :
    alookup (.scalar (.int 1)) crossSt.idCache
      = alookup (.scalar (.int 1)) ovfState.idCache
    ∧ alookup (.scalar (.int 1)) crossSt.idCache ≠ none
    ∧ alookup (toId (.scalar (.int 1)))
        (parseRow ovfState ⟨.scalar (.int 1), some [knit], none⟩).1.idCache
        = some 2 :=
  ⟨(c9_cache_shared_across_patterns ovfState crossBase crossSt crossKp
      (.scalar (.int 1)) rfl).1 (by decide),
   (c9_cache_shared_across_patterns ovfState crossBase crossSt crossKp
      (.scalar (.int 1)) rfl).2.1 (by decide),
   (c9_cache_shared_across_patterns ovfState crossBase crossSt crossKp
      (.scalar (.int 1)) rfl).2.2 ovfState ⟨.scalar (.int 1), some [knit], none⟩⟩

/-! ## C6: instruction sizes and the hole scenario -/

theorem placeInstrsAux_points (st : ParserState)
    (mp : List (MeshRef × (GridPoint × Int))) (r : Row) (y : Int) :
    ∀ (l : List KInstruction) (idx cstart pstart : Nat) (prevEnd : Int),
    ∀ pt ∈ (placeInstrsAux st mp r y l idx cstart pstart prevEnd).1,
    ∃ j i, l.get? j = some i ∧ pt.rowSerial = r.serial ∧ pt.instrIdx = idx + j
      ∧ pt.width = i.produces ∧ pt.height = 1 := by
  intro l
  induction l with
  | nil => intro idx cstart pstart prevEnd pt hmem; cases hmem
  | cons i rest ih =>
    intro idx cstart pstart prevEnd pt hmem
    rw [placeInstrsAux] at hmem
    rcases List.mem_cons.mp hmem with heq | hmem'
    · subst heq
      exact ⟨0, i, rfl, rfl, rfl, rfl, rfl⟩
    · obtain ⟨j, i', hj, hser, hidx, hw, hh⟩ :=
        ih (idx + 1) (cstart + i.consumes) (pstart + i.produces)
          (instrX st mp r cstart i prevEnd + i.produces) pt hmem'
      exact ⟨j + 1, i', hj, hser, by omega, hw, hh⟩

theorem layoutAux_points (st : ParserState) :
    ∀ (rows : List (Nat × Int)) (mp : List (MeshRef × (GridPoint × Int))),
    ∀ pt ∈ (layoutAux st rows mp).1,
    ∃ r mp2 y2, r ∈ st.rows ∧ pt ∈ (placeRowInstrs st mp2 r y2).1 := by
  intro rows
  induction rows with
  | nil => intro mp pt hmem; cases hmem
  | cons sy rest ih =>
    intro mp pt hmem
    rcases sy with ⟨s, y⟩
    rw [layoutAux] at hmem
    cases hr : st.rows.get? s with
    | none =>
      rw [hr] at hmem
      exact ih mp pt hmem
    | some r =>
      rw [hr] at hmem
      rcases List.mem_append.mp hmem with hl | hrm
      · exact ⟨r, mp, y, List.get?_mem hr, hl⟩
      · exact ih _ pt hrm

/-- C6: every placed instruction has width equal to its number of
produced meshes when that is at least one and zero otherwise, and height
one; and in the hole scenario the instruction consuming two meshes and
producing none gets size `(0, 1)`, while the instruction after it is
placed at the x of the instruction it actually consumes from (x = 3, the
producer of its first consumed mesh), not at the previous instruction's
x plus width (1 + 0). -/
theorem c6_width_and_hole (st : ParserState) (pat : KPattern) (pt : GridPoint)
    (hmem : pt ∈ (mkLayout st pat).points) :
    (∃ r, r ∈ st.rows ∧ r.serial = pt.rowSerial
      ∧ ∃ i, r.instructions.get? pt.instrIdx = some i
        ∧ pt.width = (if 1 ≤ i.produces then i.produces else 0)
        ∧ pt.height = 1)
    ∧ ((knittingPatternSet startState holeValues).isOk = true
      ∧ (holeSet.finalState.rows.get? 1).map (·.instructions)
          = some [knit, ⟨2, 0⟩, knit]
      ∧ holeLayout.points.get? 5
          = some ⟨1, 1, 1, 1, 0, 1⟩
      ∧ holeLayout.points.get? 6
          = some ⟨1, 2, 3, 1, 1, 1⟩
      ∧ linkOf holeSet.finalState ⟨1, .consumed, 3⟩ = some ⟨0, .produced, 3⟩
      ∧ holeLayout.points.get? 3 = some ⟨0, 3, 3, 0, 1, 1⟩
      ∧ (holeLayout.points.get? 6).map (·.x)
          ≠ (holeLayout.points.get? 5).map (fun p => p.x + p.width)) := by
  constructor
  · obtain ⟨r, mp2, y2, hr, hpl⟩ := layoutAux_points st _ _ pt hmem
    obtain ⟨j, i, hj, hser, hidx, hw, hh⟩ :=
      placeInstrsAux_points st mp2 r y2 r.instructions 0 0 0 0 pt hpl
    refine ⟨r, hr, hser.symm, i, ?_, ?_, hh⟩
    · rw [hidx]
      simpa using hj
    · rw [hw]
      by_cases hp : 1 ≤ i.produces
      · rw [if_pos hp]
      · rw [if_neg hp]
        omega
  · refine ⟨by decide, by decide, by decide, by decide, by decide, by decide, by decide⟩

/-- Closed witness: C6 applied to the hole-scenario point of the hole
instruction itself (walk index 5, the 2→0 instruction of row 2). -/
theorem c6_width_and_hole_witness :
    (∃ r, r ∈ holeSet.finalState.rows ∧ r.serial = 1
      ∧ ∃ i, r.instructions.get? 1 = some i
        ∧ (0 : Nat) = (if 1 ≤ i.produces then i.produces else 0)
        ∧ (1 : Nat) = 1)
    ∧ ((knittingPatternSet startState holeValues).isOk = true
      ∧ (holeSet.finalState.rows.get? 1).map (·.instructions)
          = some [knit, ⟨2, 0⟩, knit]
      ∧ holeLayout.points.get? 5
          = some ⟨1, 1, 1, 1, 0, 1⟩
      ∧ holeLayout.points.get? 6
          = some ⟨1, 2, 3, 1, 1, 1⟩
      ∧ linkOf holeSet.finalState ⟨1, .consumed, 3⟩ = some ⟨0, .produced, 3⟩
      ∧ holeLayout.points.get? 3 = some ⟨0, 3, 3, 0, 1, 1⟩
      ∧ (holeLayout.points.get? 6).map (·.x)
          ≠ (holeLayout.points.get? 5).map (fun p => p.x + p.width)) :=
  c6_width_and_hole holeSet.finalState
    (holeSet.patterns.headD ⟨.scalar (.int 0), "", []⟩)
    ⟨1, 1, 1, 1, 0, 1⟩ (by decide)
